import Mathlib

/-!
Verification development for the attendance-system repository.

Shallow embedding of the persistence-and-domain core:
  * src/lib/storage.ts  — record store, quota handling, backups, checksum
  * src/lib/attendance.ts — domain operations, statistics, admin lockout

Modelling conventions (stated once here, referenced below):
  * Timestamps are modelled as epoch milliseconds (`Nat`).  The code stores
    `Date.toISOString()` strings; ISO-8601 UTC strings are in an
    order-preserving bijection with epoch milliseconds, and the local
    timezone is taken to be UTC, so `new Date(ts).getTime()` is the
    identity and `getHours`/`getMinutes` are modular arithmetic on ms.
  * `toLocaleDateString` renders the local calendar day; it is modelled by
    the day index since the epoch rendered as a decimal string, which is in
    bijection with the rendered day.
  * `localStorage` state relevant to the claims is collected in `Store`:
    the parsed attendance-records array, the rotated backup snapshots
    (key timestamp and records), the integrity-hash key, the quota-warning
    key, and an oracle `quotaEnv` giving the successive results of the
    probe-based `checkStorageQuota` (the probe depends on the host; each
    call consumes one oracle entry, an exhausted oracle reports 0%,
    i.e. no pressure).  `localStorage.setItem` itself is assumed not to
    throw; the only write failure modelled is the explicit
    size-limit check of `saveRecords`.
  * JS truthiness of a string field is "present and non-empty".
  * The mutual recursion saveRecords → handleQuotaExceeded /
    attemptDataRecovery → saveRecords is unbounded in the source (it can
    re-enter itself while the quota probe keeps reporting pressure), so the
    model adds an explicit fuel counter; all theorems below run with ample
    fuel on traces whose recursion depth is bounded.
-/

/-- The ten fixed role categories (src/lib/types.ts, `PrefectRole`). -/
inductive Role where
  | head
  | deputy
  | seniorExecutive
  | executive
  | superSenior
  | senior
  | junior
  | sub
  | apprentice
  | gamesCaptain
deriving DecidableEq, Repr

/-- The string each role renders as in JSON payloads and reports. -/
def roleToString : Role → String
  | .head => "Head"
  | .deputy => "Deputy"
  | .seniorExecutive => "Senior Executive"
  | .executive => "Executive"
  | .superSenior => "Super Senior"
  | .senior => "Senior"
  | .junior => "Junior"
  | .sub => "Sub"
  | .apprentice => "Apprentice"
  | .gamesCaptain => "Games Captain"

/-- AttendanceRecord (src/lib/types.ts): `timestamp` in epoch ms (see header). -/
structure Rec where
  id : String
  prefectNumber : String
  role : Role
  timestamp : Nat
  date : String
deriving DecidableEq, Repr

/-- Epoch-ms rendering of `Date.toISOString()` (order-preserving bijection). -/
def toISOString (ms : Nat) : String := toString ms

/-- Model of `Date.toLocaleDateString()`: the local calendar-day index. -/
def toLocaleDateString (ms : Nat) : String := toString (ms / 86400000)

/-- Model of `Date.getHours()` with local timezone taken as UTC. -/
def getHours (ms : Nat) : Nat := ms / 3600000 % 24

/-- Model of `Date.getMinutes()`. -/
def getMinutes (ms : Nat) : Nat := ms / 60000 % 60

/-- Model of `Date.getSeconds()` (used only to pin down boundary inputs
such as 07:00:01 in the statements below). -/
def getSeconds (ms : Nat) : Nat := ms / 1000 % 60

/-- Hex digit used by JSON `\u00XX` escapes. -/
def hexDigit (d : Nat) : Char := Char.ofNat (if d < 10 then 48 + d else 87 + d)

/-- JSON escaping of one character, as performed by `JSON.stringify`. -/
def jsonEscapeChar (c : Char) : List Char :=
  if c = '"' then ['\\', '"']
  else if c = '\\' then ['\\', '\\']
  else if c = Char.ofNat 8 then ['\\', 'b']
  else if c = Char.ofNat 9 then ['\\', 't']
  else if c = Char.ofNat 10 then ['\\', 'n']
  else if c = Char.ofNat 12 then ['\\', 'f']
  else if c = Char.ofNat 13 then ['\\', 'r']
  else if c.toNat < 32 then ['\\', 'u', '0', '0', hexDigit (c.toNat / 16), hexDigit (c.toNat % 16)]
  else [c]

/-- `JSON.stringify` of a string value. -/
def strJson (s : String) : String :=
  ⟨'"' :: ((s.data.map jsonEscapeChar).flatten ++ ['"'])⟩

/-- `JSON.stringify` of one AttendanceRecord, with the construction-time key
order id, prefectNumber, role, timestamp, date (saveManualAttendance). -/
def recJson (r : Rec) : String :=
  "\x7b" ++ strJson "id" ++ ":" ++ strJson r.id ++
  "," ++ strJson "prefectNumber" ++ ":" ++ strJson r.prefectNumber ++
  "," ++ strJson "role" ++ ":" ++ strJson (roleToString r.role) ++
  "," ++ strJson "timestamp" ++ ":" ++ strJson (toISOString r.timestamp) ++
  "," ++ strJson "date" ++ ":" ++ strJson r.date ++ "\x7d"

/-- `JSON.stringify` of the records array. -/
def recordsJson (l : List Rec) : String :=
  "[" ++ String.intercalate "," (l.map recJson) ++ "]"

/-- Length of `recordsJson l`, computed without building the string
(brackets + per-record JSON lengths + separating commas). -/
def recordsJsonLength (l : List Rec) : Nat :=
  2 + ((l.map (fun r => (recJson r).length + 1)).sum - 1)

/-- JS `ToInt32` coercion (the `hash & hash` step of generateDataHash). -/
def toInt32 (n : Int) : Int := (n + 2147483648) % 4294967296 - 2147483648

/-- One step of the rolling hash: `hash = ((hash << 5) - hash) + char`
followed by `hash = hash & hash`; `<<` itself wraps to int32 in JS. -/
def hashStep (h : Int) (c : Char) : Int := toInt32 (toInt32 (h * 32) - h + c.toNat)

/-- The accumulated 32-bit rolling hash over the characters of a string
(`charCodeAt` equals the scalar value for the BMP strings involved). -/
def hashString (s : String) : Int := s.data.foldl hashStep 0

/-- Base-36 digit as produced by `Number.prototype.toString(36)`. -/
def b36digit (d : Nat) : Char := Char.ofNat (if d < 10 then 48 + d else 87 + d)

/-- Base-36 digits accumulator.  The first argument is fuel making the
division recursion structural; 32 suffices for every 32-bit value. -/
def natToBase36Go : Nat → Nat → List Char → List Char
  | 0, n, acc => b36digit (n % 36) :: acc
  | fuel + 1, n, acc =>
    if n < 36 then b36digit n :: acc
    else natToBase36Go fuel (n / 36) (b36digit (n % 36) :: acc)

/-- `Number.prototype.toString(36)` for a non-negative integer. -/
def natToBase36 (n : Nat) : String := ⟨natToBase36Go 32 n []⟩

/-- `Number.prototype.toString(36)`, negative values rendered with `-`. -/
def intToBase36 (n : Int) : String :=
  if n < 0 then "-" ++ natToBase36 n.natAbs else natToBase36 n.toNat

/-- Lexicographic comparison of character lists by scalar value: the order
`localeCompare` induces on the ASCII ids this system generates. -/
def charListLe : List Char → List Char → Bool
  | [], _ => true
  | _ :: _, [] => false
  | a :: as, b :: bs =>
    if a.toNat < b.toNat then true
    else if b.toNat < a.toNat then false
    else charListLe as bs

/-- String comparison backing the `localeCompare` sort key. -/
def strLe (a b : String) : Bool := charListLe a.data b.data

/-- The `(a, b) => a.id.localeCompare(b.id)` sort order on records. -/
def idLe (a b : Rec) : Prop := strLe a.id b.id = true

instance : DecidableRel idLe := fun a b =>
  inferInstanceAs (Decidable (strLe a.id b.id = true))

/-- storage.ts `generateDataHash`: sort by `id` (`localeCompare`;
`Array.prototype.sort` is stable, as is `List.insertionSort`), serialize,
then the shift-and-subtract rolling hash rendered in base 36. -/
def generateDataHash (data : List Rec) : String :=
  intToBase36 (hashString (recordsJson (List.insertionSort idLe data)))

/-- storage.ts `MAX_STORAGE_SIZE` = 4.5 * 1024 * 1024. -/
def MAX_STORAGE_SIZE : Nat := 4718592

/-- Failures surfaced by the storage layer in this model. -/
inductive StorageErr where
  | fuelExhausted
  | sizeExceeded
deriving DecidableEq, Repr

/-- The localStorage state relevant to the claims (see the header comment):
parsed records array, rotated backups (key timestamp, records), integrity
hash, quota-warning flag, and the quota-probe oracle. -/
structure Store where
  records : List Rec
  backups : List (Nat × List Rec)
  integrityHash : Option String
  quotaWarning : Bool
  quotaEnv : List Nat
deriving DecidableEq, Repr

/-- The truthiness filter of storage.ts `getRecords`:
`record && typeof record === 'object' && record.id && record.prefectNumber
&& record.role && record.timestamp`.  In the typed model `role` renders as
one of the ten non-empty category strings and `timestamp` as a non-empty
ISO string, so those two conjuncts are always true. -/
def recTruthy (r : Rec) : Bool := r.id ≠ "" && r.prefectNumber ≠ ""

/-- storage.ts `getRecords` on the typed view: the stored array with the
truthiness filter applied (never throws; the raw-payload behaviour on
missing/malformed payloads is modelled below by `getRecords`). -/
def liveRecords (s : Store) : List Rec := s.records.filter recTruthy

/-- storage.ts `checkStorageQuota`: the probe result is environment
dependent, modelled by consuming the head of the `quotaEnv` oracle
(an exhausted oracle reports 0%, i.e. no pressure). -/
def checkStorageQuota (s : Store) : Nat × Store :=
  match s.quotaEnv with
  | [] => (0, s)
  | p :: rest => (p, { s with quotaEnv := rest })

/-- The `(a, b) => new Date(b.timestamp).getTime() - new Date(a.timestamp).getTime()`
comparator: timestamp descending. -/
def tsGe (a b : Rec) : Prop := b.timestamp ≤ a.timestamp

instance : DecidableRel tsGe := fun a b =>
  inferInstanceAs (Decidable (b.timestamp ≤ a.timestamp))

/-- The stable descending sort by `new Date(timestamp).getTime()` used by
`handleQuotaExceeded` and `searchPrefectRecords`. -/
def sortTsDesc (l : List Rec) : List Rec := List.insertionSort tsGe l

/-- storage.ts `cleanOldBackups`: sort backup keys by embedded timestamp
descending and delete all but the 5 most recent. -/
def cleanOldBackups (s : Store) : Store :=
  { s with backups :=
      (List.insertionSort (fun a b : Nat × List Rec => b.1 ≤ a.1) s.backups).take 5 }

/-- storage.ts `getLatestBackup`: most recent backup by key timestamp. -/
def getLatestBackup (s : Store) : Option (Nat × List Rec) :=
  (List.insertionSort (fun a b : Nat × List Rec => b.1 ≤ a.1) s.backups).head?

/-- storage.ts `handleQuotaExceeded`, parameterized by the (lower-fuel)
saveRecords to call back into: prune backups; if the live count exceeds
1000, sort by timestamp descending and keep the most recent 800.  The
enclosing try/catch swallows a failure of the nested save, in which case
the quota-warning write is skipped. -/
def handleQuotaExceededGo (save : List Rec → Store → Store × Option StorageErr)
    (s : Store) : Store :=
  let s1 := cleanOldBackups s
  let records := liveRecords s1
  if 1000 < records.length then
    match save ((sortTsDesc records).take 800) s1 with
    | (s2, none) => { s2 with quotaWarning := true }
    | (s2, some _) => s2
  else { s1 with quotaWarning := true }

/-- storage.ts `attemptDataRecovery`, parameterized like above: restore
wholesale from the most recent backup if one exists; otherwise re-filter
the live records in place (the filter re-applies the getRecords
truthiness test, so it never removes anything and the fallback save is
never reached). -/
def attemptDataRecoveryGo (save : List Rec → Store → Store × Option StorageErr)
    (s : Store) : Store :=
  match getLatestBackup s with
  | some b => (save b.2 s).1
  | none =>
    let records := liveRecords s
    let validRecords := records.filter recTruthy
    if validRecords.length ≠ records.length then (save validRecords s).1 else s

/-- storage.ts `saveRecords`: quota check (eviction when usage is above
90%), serialized-size check (failure runs the catch handler, i.e.
`handleStorageError` with a generic Error, which is `attemptDataRecovery`,
and re-raises), then the write of the argument together with the refreshed
integrity hash.  Listener notification and backup metadata do not affect
any claim and are omitted.  The fuel bounds the source's unbounded
re-entrancy (see header). -/
def saveRecords : Nat → List Rec → Store → Store × Option StorageErr
  | 0, _, s => (s, some .fuelExhausted)
  | fuel + 1, records, s =>
    let q := checkStorageQuota s
    let s2 := if 90 < q.1 then handleQuotaExceededGo (fun rs st => saveRecords fuel rs st) q.2 else q.2
    if MAX_STORAGE_SIZE < recordsJsonLength records then
      (attemptDataRecoveryGo (fun rs st => saveRecords fuel rs st) s2, some .sizeExceeded)
    else
      ({ s2 with records := records, integrityHash := some (generateDataHash records) }, none)

/-- Ample fuel for every trace considered below. -/
def FUEL : Nat := 100

/-- storage.ts `handleQuotaExceeded` at standard fuel. -/
def handleQuotaExceeded (s : Store) : Store :=
  handleQuotaExceededGo (fun rs st => saveRecords FUEL rs st) s

/-- storage.ts `addRecord`: read-modify-write append. -/
def addRecord (record : Rec) (s : Store) : Store × Option StorageErr :=
  saveRecords FUEL (liveRecords s ++ [record]) s

/-- storage.ts `deleteRecord`: filter the id out and persist. -/
def deleteRecord (id : String) (s : Store) : Store × Option StorageErr :=
  saveRecords FUEL ((liveRecords s).filter fun r => r.id ≠ id) s

/-- storage.ts backup payload shape (timestamp, version, records,
metadata.recordCount, metadata.type).  `restoreFromBackup` parses the
serialized string back to this structure; serialization round-trips, so the
model passes the structure directly.  `metadata.createdAt` repeats the
timestamp in ISO form and is omitted. -/
structure Backup where
  timestamp : Nat
  version : String
  records : List Rec
  recordCount : Nat
  btype : String
deriving DecidableEq, Repr

/-- storage.ts `createManualBackup`: snapshot the live records, persist the
snapshot into the rotation under its key timestamp, and return it for
external export. -/
def createManualBackup (now : Nat) (s : Store) : Backup × Store :=
  let records := liveRecords s
  (⟨now, "2.0.0", records, records.length, "manual"⟩,
   { s with backups := s.backups ++ [(now, records)] })

/-- storage.ts `restoreFromBackup`: filter out records missing a required
field, then wholesale-replace the live set via saveRecords.  The
invalid-format branch (records field missing or not a list) is outside
this typed payload and is covered by the raw-payload model below. -/
def restoreFromBackup (b : Backup) (s : Store) : Except StorageErr Unit × Store :=
  let validRecords := b.records.filter recTruthy
  match saveRecords FUEL validRecords s with
  | (s1, none) => (.ok (), s1)
  | (s1, some e) => (.error e, s1)

/-- Partial update object (`Partial<AttendanceRecord>`): a field is present
iff the option is `some`. -/
structure Upd where
  id : Option String := none
  prefectNumber : Option String := none
  role : Option Role := none
  timestamp : Option Nat := none
  date : Option String := none
deriving DecidableEq, Repr

/-- JS truthiness of an optional string field (present and non-empty). -/
def jsTruthyStr (o : Option String) : Bool :=
  match o with
  | some v => v ≠ ""
  | none => false

/-- JS `a || b` for an optional string field: the field value when truthy,
else the fallback. -/
def jsOrStr (o : Option String) (d : String) : String :=
  match o with
  | some v => if v = "" then d else v
  | none => d

/-- JS truthiness of an optional role field: every one of the ten role
strings is non-empty, so presence suffices. -/
def jsTruthyRole (o : Option Role) : Bool := o.isSome

/-- JS `a || b` for an optional role field. -/
def jsOrRole (o : Option Role) (d : Role) : Role := o.getD d

/-- Spread merge `{ ...record, ...updates }`: a present key overwrites the
existing field whatever its value. -/
def mergeRec (r : Rec) (u : Upd) : Rec :=
  { id := u.id.getD r.id
  , prefectNumber := u.prefectNumber.getD r.prefectNumber
  , role := u.role.getD r.role
  , timestamp := u.timestamp.getD r.timestamp
  , date := u.date.getD r.date }

/-- Replace the first element satisfying `p` (the combination of
`findIndex` and index assignment used by storage.ts `updateRecord`). -/
def setFirst (p : Rec → Bool) (b : Rec) : List Rec → List Rec
  | [] => []
  | a :: l => if p a then b :: l else a :: setFirst p b l

/-- Errors of storage.ts `updateRecord`. -/
inductive UpdateErr where
  | notFound
  | save (e : StorageErr)
deriving DecidableEq, Repr

/-- storage.ts `updateRecord`: find the record, merge the updates over it,
assign it back at its index, persist, and return the merged record. -/
def updateRecord (id : String) (updates : Upd) (s : Store) :
    Except UpdateErr Rec × Store :=
  let records := liveRecords s
  match records.find? (fun r => r.id == id) with
  | none => (.error .notFound, s)
  | some existing =>
    let updatedRecord := mergeRec existing updates
    let records2 := setFirst (fun r => r.id == id) updatedRecord records
    match saveRecords FUEL records2 s with
    | (s1, none) => (.ok updatedRecord, s1)
    | (s1, some e) => (.error (.save e), s1)

/-- The error taxonomy of the domain layer (attendance.ts throw sites). -/
inductive AttendanceError where
  | duplicateAttendance
  | notFound
  | saveFailed
  | updateFailed
  | deleteFailed
deriving DecidableEq, Repr

/-- attendance.ts `MAX_DAYS`: 999999999 days are about 8.64e16 ms, ten
times beyond the ECMA-262 Date range of plus or minus 8.64e15 ms, so the
cutoff `cutoff.setDate(cutoff.getDate() - MAX_DAYS)` clips to an Invalid
Date (NaN time value). -/
def MAX_DAYS : Nat := 999999999

/-- The filter test `new Date(record.timestamp) > cutoff` of
cleanOldRecords: the cutoff is the Invalid Date produced above, and every
relational comparison against a NaN time value is false in JS, whatever
the timestamp. -/
def afterCutoff (_ms : Nat) : Bool := false

/-- attendance.ts `checkDuplicateAttendance`: true iff a live record with
that exact (prefectNumber, role, date) triple exists. -/
def checkDuplicateAttendance (prefectNumber : String) (role : Role) (date : String)
    (s : Store) : Bool :=
  (liveRecords s).any fun record =>
    record.prefectNumber == prefectNumber && record.role == role && record.date == date

/-- attendance.ts `cleanOldRecords`: filter the live records by the
cutoff comparison and persist only when something was dropped; its
try/catch swallows persistence failures.  Because the cutoff is an
Invalid Date, the filter keeps nothing, so whenever the live set is
nonempty this function persists the empty list — it wipes all records
every time it runs, i.e. after every successful saveManualAttendance. -/
def cleanOldRecords (s : Store) : Store :=
  let records := liveRecords s
  let filteredRecords := records.filter fun record => afterCutoff record.timestamp
  if filteredRecords.length ≠ records.length
  then (saveRecords FUEL filteredRecords s).1
  else s

/-- attendance.ts `saveManualAttendance`: derive the date partition key,
reject duplicates, construct the record (`newId` models the fresh
`crypto.randomUUID()`), persist through addRecord, then run the retention
cleanup (which, see cleanOldRecords, wipes the freshly written live set);
persistence failure is caught and surfaced as saveFailed. -/
def saveManualAttendance (prefectNumber : String) (role : Role) (timestamp : Nat)
    (newId : String) (s : Store) : Except AttendanceError Rec × Store :=
  let date := toLocaleDateString timestamp
  if checkDuplicateAttendance prefectNumber role date s then
    (.error .duplicateAttendance, s)
  else
    let record : Rec :=
      { id := newId, prefectNumber := prefectNumber, role := role
      , timestamp := timestamp, date := date }
    match addRecord record s with
    | (s1, none) => (.ok record, cleanOldRecords s1)
    | (s1, some _) => (.error .saveFailed, s1)

/-- The two ways a bulk entry lands in `errors`: the up-front duplicate
check (`Already registered for ... today`), or an error thrown by the
nested saveManualAttendance. -/
inductive BulkError where
  | alreadyRegisteredToday
  | saveError (e : AttendanceError)
deriving DecidableEq, Repr

/-- Result shape of attendance.ts `saveBulkAttendance`. -/
structure BulkResult where
  success : List Rec
  errors : List (String × Role × BulkError)
deriving DecidableEq, Repr

/-- The per-entry loop of `saveBulkAttendance`; `ids` supplies the fresh
uuid for each actual save attempt. -/
def saveBulkGo (date : String) (now : Nat) :
    List (String × Role) → List String → Store → BulkResult × Store
  | [], _, s => (⟨[], []⟩, s)
  | (prefectNumber, role) :: rest, ids, s =>
    if checkDuplicateAttendance prefectNumber role date s then
      let r := saveBulkGo date now rest ids s
      (⟨r.1.success, (prefectNumber, role, .alreadyRegisteredToday) :: r.1.errors⟩, r.2)
    else
      match saveManualAttendance prefectNumber role now (ids.headD "") s with
      | (.ok record, s1) =>
        let r := saveBulkGo date now rest ids.tail s1
        (⟨record :: r.1.success, r.1.errors⟩, r.2)
      | (.error e, s1) =>
        let r := saveBulkGo date now rest ids.tail s1
        (⟨r.1.success, (prefectNumber, role, .saveError e) :: r.1.errors⟩, r.2)

/-- attendance.ts `saveBulkAttendance`: every entry attempted
independently; failures are captured into `errors` and never abort the
remaining entries. -/
def saveBulkAttendance (attendanceData : List (String × Role)) (now : Nat)
    (ids : List String) (s : Store) : BulkResult × Store :=
  saveBulkGo (toLocaleDateString now) now attendanceData ids s

/-- attendance.ts `updateAttendance`: not-found check, then — only when the
updates carry a truthy prefectNumber or role — re-validation of the
uniqueness invariant against the resulting triple excluding the record
itself, then delegation to storage updateRecord (whose failures the domain
catch converts to updateFailed). -/
def updateAttendance (id : String) (updates : Upd) (s : Store) :
    Except AttendanceError Rec × Store :=
  let records := liveRecords s
  match records.find? (fun r => r.id == id) with
  | none => (.error .notFound, s)
  | some existingRecord =>
    let proceed : Unit → Except AttendanceError Rec × Store := fun _ =>
      match updateRecord id updates s with
      | (.ok record, s1) => (.ok record, s1)
      | (.error _, s1) => (.error .updateFailed, s1)
    if jsTruthyStr updates.prefectNumber || jsTruthyRole updates.role then
      let date := jsOrStr updates.date existingRecord.date
      let prefectNumber := jsOrStr updates.prefectNumber existingRecord.prefectNumber
      let role := jsOrRole updates.role existingRecord.role
      let hasDuplicate := records.any fun record =>
        record.id != id && record.prefectNumber == prefectNumber &&
        record.role == role && record.date == date
      if hasDuplicate then (.error .duplicateAttendance, s)
      else proceed ()
    else proceed ()

/-- attendance.ts `deleteAttendance`: delegate to deleteRecord; a
persistence failure is caught and surfaced as deleteFailed. -/
def deleteAttendance (id : String) (s : Store) : Except AttendanceError Unit × Store :=
  match deleteRecord id s with
  | (s1, none) => (.ok (), s1)
  | (s1, some _) => (.error .deleteFailed, s1)

/-- `String.prototype.toLowerCase`, character by character (the inputs
involved are ASCII, where JS and Unicode simple lowercasing agree). -/
def toLowerCase (s : String) : String := ⟨s.data.map Char.toLower⟩

/-- `String.prototype.includes` on character lists. -/
def listIncludes (pat : List Char) : List Char → Bool
  | [] => pat.isEmpty
  | c :: t => pat.isPrefixOf (c :: t) || listIncludes pat t

/-- `String.prototype.includes`. -/
def strIncludes (s pat : String) : Bool := listIncludes pat.data s.data

/-- attendance.ts `searchPrefectRecords`: case-insensitive substring match
on prefectNumber, result sorted by timestamp descending. -/
def searchPrefectRecords (prefectNumber : String) (s : Store) : List Rec :=
  sortTsDesc ((liveRecords s).filter fun record =>
    strIncludes (toLowerCase record.prefectNumber) (toLowerCase prefectNumber))

/-- The on-time test repeated inline by getPrefectStats, getDailyStats,
exportPrefectReport and exportAttendance:
`time.getHours() < 7 || (time.getHours() === 7 && time.getMinutes() === 0)`. -/
def isOnTime (ms : Nat) : Bool :=
  getHours ms < 7 || (getHours ms == 7 && getMinutes ms == 0)

/-- Aggregate returned by attendance.ts `getPrefectStats`. -/
structure PrefectStats where
  totalDays : Nat
  onTimeDays : Nat
  lateDays : Nat
  attendanceRate : ℚ
  roles : Role → Nat
  recentRecords : List Rec

/-- attendance.ts `getPrefectStats`: aggregates over the result of
searchPrefectRecords; the per-record forEach accumulation is expressed by
counting filters. -/
def getPrefectStats (prefectNumber : String) (s : Store) : PrefectStats :=
  let records := searchPrefectRecords prefectNumber s
  let onTimeDays := (records.filter fun r => isOnTime r.timestamp).length
  { totalDays := records.length
  , onTimeDays := onTimeDays
  , lateDays := (records.filter fun r => !isOnTime r.timestamp).length
  , attendanceRate :=
      if 0 < records.length then (onTimeDays : ℚ) / (records.length : ℚ) * 100 else 0
  , roles := fun role => (records.filter fun r => r.role == role).length
  , recentRecords := records.take 10 }

/-- Aggregate returned by attendance.ts `getDailyStats`. -/
structure DailyStats where
  total : Nat
  onTime : Nat
  late : Nat
  byRole : Role → Nat

/-- attendance.ts `getDailyStats`: aggregates over the live records of one
date partition. -/
def getDailyStats (date : String) (s : Store) : DailyStats :=
  let records := (liveRecords s).filter fun r => r.date == date
  { total := records.length
  , onTime := (records.filter fun r => isOnTime r.timestamp).length
  , late := (records.filter fun r => !isOnTime r.timestamp).length
  , byRole := fun role => (records.filter fun r => r.role == role).length }

/-- Persisted admin lockout state (admin_failed_attempts and
admin_lockout_time keys; a removed key reads as 0). -/
structure AdminState where
  failedAttempts : Nat
  lockoutTime : Nat
deriving DecidableEq, Repr

/-- Outcome of one checkAdminAccess call (success, or one of the two throw
sites). -/
inductive AdminResult where
  | success
  | lockedOut (remainingMinutes : Nat)
  | invalidPin (remainingAttempts : Nat)
deriving DecidableEq, Repr

/-- attendance.ts `ADMIN_PIN`. -/
def ADMIN_PIN : String := "apple"

/-- attendance.ts `MAX_FAILED_ATTEMPTS`. -/
def MAX_FAILED_ATTEMPTS : Nat := 10

/-- attendance.ts `LOCKOUT_DURATION` (15 minutes in ms). -/
def LOCKOUT_DURATION : Nat := 900000

/-- `Math.ceil (a / b)` for naturals. -/
def ceilDiv (a b : Nat) : Nat := (a + b - 1) / b

/-- attendance.ts `checkAdminAccess` (`now` is `Date.now()`): an active
lockout rejects every attempt without consuming one; a correct PIN resets
both keys; a wrong one increments the counter and either starts the
15-minute lockout at the threshold or reports the remaining attempts. -/
def checkAdminAccess (pin : String) (now : Nat) (s : AdminState) :
    AdminResult × AdminState :=
  if now < s.lockoutTime then
    (.lockedOut (ceilDiv (s.lockoutTime - now) 60000), s)
  else if pin = ADMIN_PIN then
    (.success, ⟨0, 0⟩)
  else
    let failedAttempts := s.failedAttempts + 1
    if MAX_FAILED_ATTEMPTS ≤ failedAttempts then
      (.lockedOut (LOCKOUT_DURATION / 60000),
       ⟨failedAttempts, now + LOCKOUT_DURATION⟩)
    else
      (.invalidPin (MAX_FAILED_ATTEMPTS - failedAttempts),
       ⟨failedAttempts, s.lockoutTime⟩)

/-- A raw entry of the persisted records payload before validation: either
not an object, or an object whose required fields may be missing or empty
(its remaining fields do not matter to getRecords). -/
inductive RawEntry where
  | nonObject
  | obj (id prefectNumber role timestamp : Option String)
deriving DecidableEq, Repr

/-- The persisted content found under the attendance-records key: absent,
not valid JSON (JSON.parse throws, the catch returns []), valid JSON that
is not an array, or an array of raw entries. -/
inductive RecordsPayload where
  | missing
  | unparsable
  | nonArray
  | array (entries : List RawEntry)
deriving DecidableEq, Repr

/-- The getRecords per-entry validation:
`record && typeof record === 'object' && record.id && record.prefectNumber
&& record.role && record.timestamp`. -/
def rawValid : RawEntry → Bool
  | .nonObject => false
  | .obj id prefectNumber role timestamp =>
    jsTruthyStr id && jsTruthyStr prefectNumber && jsTruthyStr role && jsTruthyStr timestamp

/-- storage.ts `getRecords` over the raw persisted payload: [] when the key
is absent, when parsing throws, or when the payload is not an array;
otherwise the entries that pass validation.  Total by construction — every
failure path returns a list instead of raising. -/
def getRecords : RecordsPayload → List RawEntry
  | .missing => []
  | .unparsable => []
  | .nonArray => []
  | .array entries => entries.filter rawValid

/-- The uniqueness invariant of the data model: no two distinct live
records share the (prefectNumber, role, date) triple. -/
def UniqueTriples (l : List Rec) : Prop :=
  l.Pairwise fun a b =>
    ¬(a.prefectNumber = b.prefectNumber ∧ a.role = b.role ∧ a.date = b.date)

instance (l : List Rec) : Decidable (UniqueTriples l) :=
  inferInstanceAs (Decidable (l.Pairwise fun a b : Rec =>
    ¬(a.prefectNumber = b.prefectNumber ∧ a.role = b.role ∧ a.date = b.date)))

/-- The initial store: empty record set, no backups, any quota
environment (initializeStorage writes the empty array on first run). -/
def initialStore (env : List Nat) : Store :=
  { records := [], backups := [], integrityHash := none
  , quotaWarning := false, quotaEnv := env }

/-- The live record sets reachable through the domain operations of the
spec: save, bulk save, update, delete, restore (each from any argument,
fresh ids being arbitrary strings), starting from the initial store. -/
inductive Reachable : Store → Prop where
  | init (env : List Nat) : Reachable (initialStore env)
  | save {s} (prefectNumber : String) (role : Role) (timestamp : Nat) (newId : String) :
      Reachable s → Reachable (saveManualAttendance prefectNumber role timestamp newId s).2
  | bulk {s} (attendanceData : List (String × Role)) (now : Nat) (ids : List String) :
      Reachable s → Reachable (saveBulkAttendance attendanceData now ids s).2
  | update {s} (id : String) (updates : Upd) :
      Reachable s → Reachable (updateAttendance id updates s).2
  | delete {s} (id : String) :
      Reachable s → Reachable (deleteAttendance id s).2
  | restore {s} (b : Backup) :
      Reachable s → Reachable (restoreFromBackup b s).2

/-- Fixed example record used by several concrete statements below. -/
def rEx : Rec :=
  { id := "x", prefectNumber := "1", role := .head, timestamp := 0, date := "d" }

/-- A store holding exactly the records given, with no backups, no stored
hash, and the given quota oracle. -/
def mkStore (records : List Rec) (env : List Nat) : Store :=
  { records := records, backups := [], integrityHash := none
  , quotaWarning := false, quotaEnv := env }

/-- The backup restored in the C1 trace: records for prefect 42 as Senior
on two different days — their (prefectNumber, role, date) triples are
distinct, so the restored live set satisfies the uniqueness invariant. -/
def c1Backup : Backup :=
  ⟨0, "2.0.0",
   [ { id := "a", prefectNumber := "42", role := .senior, timestamp := 0, date := "0" }
   , { id := "b", prefectNumber := "42", role := .senior, timestamp := 86400000, date := "1" } ],
   2, "manual"⟩

/-- First step of the C1 trace: restore that backup into the initial
store (restore performs a wholesale replace and runs no retention
cleanup, so both records stay live). -/
def c1Step1 : Store :=
  (restoreFromBackup c1Backup (initialStore [])).2

/-- Second step: a date-only update moving the second record onto day 0,
colliding with the first record's (prefectNumber, role, date) triple. -/
def c1Bad : Store :=
  (updateAttendance "b" { date := some "0" } c1Step1).2

/-- The record replicated to build the 1200-entry stored set of the C2
scenario. -/
def rQuota : Rec :=
  { id := "w", prefectNumber := "9", role := .senior, timestamp := 1000, date := "d" }

/-- The C2 scenario store: 1200 stored entries and a quota probe reporting
95% usage. -/
def c2Store : Store := mkStore (List.replicate 1200 rQuota) [95]

/-- A record timestamped 07:00:01 local time (25201000 ms). -/
def rBoundary : Rec :=
  { id := "x", prefectNumber := "7", role := .senior, timestamp := 25201000, date := "0" }

/-- Singleton store for the on-time boundary counterexample. -/
def c4Store : Store := mkStore [rBoundary] []

/-- C6 counterexample records: identical ids, different contents. -/
def rDupA : Rec :=
  { id := "a", prefectNumber := "1", role := .sub, timestamp := 0, date := "d" }

/-- Second record sharing the id of `rDupA`. -/
def rDupB : Rec :=
  { id := "a", prefectNumber := "2", role := .sub, timestamp := 0, date := "d" }

/-- Chunk 1 of the serialized [rDupA, rDupB] payload. -/
def c6a1 : String := "[\x7b\"id\":\"a\",\"prefectNumber\":\"1\",\"role\""

/-- Chunk 1 with the records swapped. -/
def c6a2 : String := "[\x7b\"id\":\"a\",\"prefectNumber\":\"2\",\"role\""

/-- Chunk 2 (shared by both orders). -/
def c6b : String := ":\"Sub\",\"timestamp\":\"0\",\"date\":\"d\"\x7d,"

/-- Chunk 3 of the serialized [rDupA, rDupB] payload. -/
def c6c1 : String := "\x7b\"id\":\"a\",\"prefectNumber\":\"2\",\"role\""

/-- Chunk 3 with the records swapped. -/
def c6c2 : String := "\x7b\"id\":\"a\",\"prefectNumber\":\"1\",\"role\""

/-- Chunk 4 (shared by both orders). -/
def c6d : String := ":\"Sub\",\"timestamp\":\"0\",\"date\":\"d\"\x7d]"

/-- Store for the C9 witness: two live records for prefect 42 as Senior on
different days. -/
def c9Store : Store :=
  mkStore
    [ { id := "a", prefectNumber := "42", role := .senior, timestamp := 0, date := "0" }
    , { id := "b", prefectNumber := "42", role := .senior, timestamp := 86400000, date := "1" } ] []

/-- Store for the C10 substring example: one record for prefect 420. -/
def c10Store : Store :=
  mkStore [ { id := "x", prefectNumber := "420", role := .senior, timestamp := 5, date := "d" } ] []

/-- Sequencing of consecutive checkAdminAccess calls: each attempt carries
(pin, call time) and threads the persisted lockout state. -/
def runAttempts (attempts : List (String × Nat)) (s : AdminState) : AdminState :=
  attempts.foldl (fun st a => (checkAdminAccess a.1 a.2 st).2) s

/-! ### Shared lemmas -/

theorem recTruthy_filter_idem (l : List Rec) :
    (l.filter recTruthy).filter recTruthy = l.filter recTruthy := by
  simp [List.filter_filter]

theorem liveRecords_filter (l : List Rec) (env : List Nat) :
    liveRecords (mkStore l env) = l.filter recTruthy := rfl

instance : IsTotal Rec tsGe := ⟨fun a b => le_total b.timestamp a.timestamp⟩

instance : IsTrans Rec tsGe := ⟨fun _ _ _ h₁ h₂ => le_trans h₂ h₁⟩

/-- Writing always succeeds and stores the argument whenever the serialized
size is within the limit, whatever the quota environment did before. -/
theorem saveRecords_writes (fuel : Nat) (records : List Rec) (s : Store)
    (hsize : recordsJsonLength records ≤ MAX_STORAGE_SIZE) :
    (saveRecords (fuel + 1) records s).1.records = records
    ∧ (saveRecords (fuel + 1) records s).2 = none := by
  have hlt : ¬ MAX_STORAGE_SIZE < recordsJsonLength records := not_lt.mpr hsize
  simp [saveRecords, hlt]

/-- FUEL rendered in successor form, for unfolding saveRecords. -/
theorem FUEL_succ : FUEL = 99 + 1 := rfl

/-! ### C4: on-time classification -/

/-- C4 counterexample: a record timestamped 07:00:01 (hour 7, minute 0,
second 1) is counted as on time by both getDailyStats and getPrefectStats,
whereas the claim says a 07:00:01 record is late. -/
theorem C4_counterexample :
    getHours rBoundary.timestamp = 7 ∧ getMinutes rBoundary.timestamp = 0 ∧
    getSeconds rBoundary.timestamp = 1 ∧
    (getDailyStats "0" c4Store).onTime = 1 ∧ (getDailyStats "0" c4Store).late = 0 ∧
    (getPrefectStats "7" c4Store).onTimeDays = 1 ∧
    (getPrefectStats "7" c4Store).lateDays = 0 := by
  refine ⟨rfl, rfl, rfl, ?_, ?_, ?_, ?_⟩ <;> decide

/-- C4 amended: the statistics and report functions classify a record on
time iff its local hour is below 7, or the hour is 7 and the minute is 0;
07:00:00 and 06:59:59 are on time, and so is 07:00:01 — seconds are
ignored, any instant of the minute 07:00 counts as on time. -/
theorem C4_amended :
    (∀ ms : Nat, isOnTime ms = true ↔
      (getHours ms < 7 ∨ (getHours ms = 7 ∧ getMinutes ms = 0)))
    ∧ (∀ (s : Store) (date : String),
        (getDailyStats date s).onTime
          = (((liveRecords s).filter fun r => r.date == date).filter
              fun r => isOnTime r.timestamp).length
        ∧ (getDailyStats date s).late
          = (((liveRecords s).filter fun r => r.date == date).filter
              fun r => !isOnTime r.timestamp).length)
    ∧ (∀ (q : String) (s : Store),
        (getPrefectStats q s).onTimeDays
          = ((searchPrefectRecords q s).filter fun r => isOnTime r.timestamp).length
        ∧ (getPrefectStats q s).lateDays
          = ((searchPrefectRecords q s).filter fun r => !isOnTime r.timestamp).length)
    ∧ isOnTime 25200000 = true ∧ isOnTime 25199000 = true ∧ isOnTime 25201000 = true := by
  refine ⟨?_, fun s date => ⟨rfl, rfl⟩, fun q s => ⟨rfl, rfl⟩, by decide, by decide, by decide⟩
  intro ms
  simp [isOnTime]

/-! ### C8: total read -/

/-- C8: getRecords always returns a list — [] when the payload is missing,
unparsable or not an array — and on an array payload it returns exactly the
entries whose required fields id, prefectNumber, role, timestamp are all
present and non-empty, dropping invalid entries instead of failing. -/
theorem C8_theorem :
    (∀ (p : RecordsPayload) (e : RawEntry), e ∈ getRecords p → rawValid e = true)
    ∧ getRecords .missing = [] ∧ getRecords .unparsable = [] ∧ getRecords .nonArray = []
    ∧ (∀ (entries : List RawEntry) (e : RawEntry),
        e ∈ getRecords (.array entries) ↔ (e ∈ entries ∧ rawValid e = true)) := by
  refine ⟨?_, rfl, rfl, rfl, ?_⟩
  · intro p e h
    cases p with
    | array entries => exact (List.mem_filter.mp h).2
    | missing => cases h
    | unparsable => cases h
    | nonArray => cases h
  · intro entries e
    exact List.mem_filter

/-- Witness for C8 at a concrete payload: a fully-populated entry read back
from a one-entry array payload is valid. -/
theorem C8_witness :
    rawValid (RawEntry.obj (some "i") (some "p") (some "r") (some "t")) = true :=
  C8_theorem.1 (.array [RawEntry.obj (some "i") (some "p") (some "r") (some "t")])
    (RawEntry.obj (some "i") (some "p") (some "r") (some "t")) (by decide)

/-! ### C5: bulk save partial-failure semantics -/

/-- Every bulk entry lands in exactly one of success or errors, whatever
happened to the entries before it. -/
theorem saveBulkGo_length (date : String) (now : Nat) :
    ∀ (data : List (String × Role)) (ids : List String) (s : Store),
      (saveBulkGo date now data ids s).1.success.length
        + (saveBulkGo date now data ids s).1.errors.length = data.length := by
  intro data
  induction data with
  | nil => intro ids s; simp [saveBulkGo]
  | cons head rest ih =>
    intro ids s
    obtain ⟨pn, role⟩ := head
    by_cases hdup : checkDuplicateAttendance pn role date s = true
    · have := ih ids s
      simp only [saveBulkGo, hdup, if_true, List.length_cons]
      omega
    · simp only [saveBulkGo, hdup, if_false, Bool.false_eq_true]
      cases hm : saveManualAttendance pn role now (ids.headD "") s with
      | mk res s1 =>
        cases res with
        | ok record =>
          have := ih ids.tail s1
          simp only [List.length_cons]
          omega
        | error e =>
          have := ih ids.tail s1
          simp only [List.length_cons]
          omega

set_option maxRecDepth 10000 in
/-- C5 counterexample: bulk-saving the duplicate pair in one call returns
TWO successes and NO errors, not one of each.  After the first entry is
saved, saveManualAttendance runs the retention cleanup, whose
invalid-date cutoff wipes the live set, so the second entry no longer
sees a duplicate and saves as well — both returned records even carry
the same (prefectNumber, role, date) triple. -/
theorem C5_counterexample :
    (saveBulkAttendance [("42", .senior), ("42", .senior)] 0 ["u1", "u2"]
        (initialStore [])).1.success.length = 2
    ∧ (saveBulkAttendance [("42", .senior), ("42", .senior)] 0 ["u1", "u2"]
        (initialStore [])).1.errors = [] := by
  constructor <;> decide

set_option maxRecDepth 10000 in
/-- C5 amended: every entry of a bulk save is attempted independently and
lands in exactly one of success or errors, whatever happened to the
entries before it (partial-failure semantics); but the duplicate-pair
scenario yields success of length 2 and errors of length 0, because each
successful save triggers the retention cleanup whose invalid-date cutoff
wipes the live set, so the second entry is not detected as a duplicate. -/
theorem C5_theorem :
    (∀ (data : List (String × Role)) (now : Nat) (ids : List String) (s : Store),
      (saveBulkAttendance data now ids s).1.success.length
        + (saveBulkAttendance data now ids s).1.errors.length = data.length)
    ∧ (saveBulkAttendance [("42", .senior), ("42", .senior)] 0 ["u1", "u2"]
        (initialStore [])).1.success.length = 2
    ∧ (saveBulkAttendance [("42", .senior), ("42", .senior)] 0 ["u1", "u2"]
        (initialStore [])).1.errors.length = 0 := by
  refine ⟨fun data now ids s => saveBulkGo_length _ now data ids s, ?_, ?_⟩ <;> decide

/-! ### C10: substring search semantics -/

/-- C10: searchPrefectRecords selects exactly the live records whose
prefectNumber contains the query as a case-insensitive substring (not only
exact matches), sorted by timestamp descending; getPrefectStats aggregates
over that result, so a record for prefect 420 is counted in the stats for
the query 42. -/
theorem C10_theorem :
    (∀ (q : String) (s : Store) (r : Rec),
      r ∈ searchPrefectRecords q s ↔
        (r ∈ liveRecords s
         ∧ strIncludes (toLowerCase r.prefectNumber) (toLowerCase q) = true))
    ∧ (∀ (q : String) (s : Store), (searchPrefectRecords q s).Sorted tsGe)
    ∧ (∀ (q : String) (s : Store),
        (getPrefectStats q s).totalDays = (searchPrefectRecords q s).length)
    ∧ ¬ ("420" = "42")
    ∧ (getPrefectStats "42" c10Store).totalDays = 1
    ∧ (getPrefectStats "42" c10Store).onTimeDays = 1 := by
  refine ⟨?_, ?_, fun q s => rfl, by decide, by decide, by decide⟩
  · intro q s r
    unfold searchPrefectRecords sortTsDesc
    rw [(List.perm_insertionSort tsGe _).mem_iff]
    exact List.mem_filter
  · intro q s
    exact List.sorted_insertionSort tsGe _

/-! ### C3: admin lockout state machine -/

/-- While no lockout is set, a run of wrong-PIN attempts below the
threshold just counts up the persisted failure counter. -/
theorem runAttempts_wrong (l : List (String × Nat)) :
    ∀ (k : Nat), (∀ a ∈ l, a.1 ≠ ADMIN_PIN) → k + l.length ≤ 9 →
      runAttempts l ⟨k, 0⟩ = ⟨k + l.length, 0⟩ := by
  induction l with
  | nil => intro k _ _; simp [runAttempts]
  | cons a t ih =>
    intro k hwrong hlen
    have ha : ¬ a.1 = ADMIN_PIN := hwrong a (List.mem_cons_self a t)
    have hth : ¬ MAX_FAILED_ATTEMPTS ≤ k + 1 := by
      simp only [MAX_FAILED_ATTEMPTS]
      simp only [List.length_cons] at hlen
      omega
    have hstep : checkAdminAccess a.1 a.2 ⟨k, 0⟩
        = (.invalidPin (MAX_FAILED_ATTEMPTS - (k + 1)), ⟨k + 1, 0⟩) := by
      simp [checkAdminAccess, ha, hth]
    have htail : ∀ b ∈ t, b.1 ≠ ADMIN_PIN := fun b hb => hwrong b (List.mem_cons_of_mem a hb)
    have hlen' : (k + 1) + t.length ≤ 9 := by
      simp only [List.length_cons] at hlen
      omega
    calc runAttempts (a :: t) ⟨k, 0⟩
        = runAttempts t (checkAdminAccess a.1 a.2 ⟨k, 0⟩).2 := by
          simp [runAttempts, List.foldl_cons]
      _ = runAttempts t ⟨k + 1, 0⟩ := by rw [hstep]
      _ = ⟨(k + 1) + t.length, 0⟩ := ih (k + 1) htail hlen'
      _ = ⟨k + (t.length + 1), 0⟩ := by
          simp only [AdminState.mk.injEq, and_true]
          omega
      _ = ⟨k + (a :: t).length, 0⟩ := by simp

/-- C3: the lockout state machine.  An active lockout (expiry in the
future) rejects every attempt unchanged; otherwise a correct PIN resets
both counters; a wrong PIN increments the persisted counter and, at the
threshold of 10, starts a 15-minute lockout, while earlier mismatches
report the remaining attempts.  Consequently, after ten consecutive wrong
attempts from a clean state, the eleventh call — whatever its PIN — made
before the lockout expiry fails locked-out without touching the state. -/
theorem C3_theorem :
    (∀ (pin : String) (now : Nat) (s : AdminState), now < s.lockoutTime →
      checkAdminAccess pin now s
        = (.lockedOut (ceilDiv (s.lockoutTime - now) 60000), s))
    ∧ (∀ (pin : String) (now : Nat) (s : AdminState), ¬ now < s.lockoutTime →
        pin = ADMIN_PIN → checkAdminAccess pin now s = (.success, ⟨0, 0⟩))
    ∧ (∀ (pin : String) (now : Nat) (s : AdminState), ¬ now < s.lockoutTime →
        pin ≠ ADMIN_PIN → MAX_FAILED_ATTEMPTS ≤ s.failedAttempts + 1 →
        checkAdminAccess pin now s
          = (.lockedOut (LOCKOUT_DURATION / 60000),
             ⟨s.failedAttempts + 1, now + LOCKOUT_DURATION⟩))
    ∧ (∀ (pin : String) (now : Nat) (s : AdminState), ¬ now < s.lockoutTime →
        pin ≠ ADMIN_PIN → s.failedAttempts + 1 < MAX_FAILED_ATTEMPTS →
        checkAdminAccess pin now s
          = (.invalidPin (MAX_FAILED_ATTEMPTS - (s.failedAttempts + 1)),
             ⟨s.failedAttempts + 1, s.lockoutTime⟩))
    ∧ (∀ (l : List (String × Nat)) (p10 : String) (t10 : Nat) (p11 : String) (t11 : Nat),
        (∀ a ∈ l, a.1 ≠ ADMIN_PIN) → l.length = 9 → p10 ≠ ADMIN_PIN →
        t11 < t10 + LOCKOUT_DURATION →
        checkAdminAccess p11 t11 (runAttempts (l ++ [(p10, t10)]) ⟨0, 0⟩)
          = (.lockedOut (ceilDiv (t10 + LOCKOUT_DURATION - t11) 60000),
             ⟨10, t10 + LOCKOUT_DURATION⟩)) := by
  refine ⟨?_, ?_, ?_, ?_, ?_⟩
  · intro pin now s h
    simp [checkAdminAccess, h]
  · intro pin now s h hpin
    simp [checkAdminAccess, h, hpin]
  · intro pin now s h hpin hth
    simp [checkAdminAccess, h, hpin, hth]
  · intro pin now s h hpin hth
    have : ¬ MAX_FAILED_ATTEMPTS ≤ s.failedAttempts + 1 := not_le.mpr hth
    simp [checkAdminAccess, h, hpin, this]
  · intro l p10 t10 p11 t11 hwrong hlen hp10 ht11
    have h9 : runAttempts l ⟨0, 0⟩ = ⟨9, 0⟩ := by
      have := runAttempts_wrong l 0 hwrong (by omega)
      simpa [hlen] using this
    have hsplit : runAttempts (l ++ [(p10, t10)]) ⟨0, 0⟩
        = (checkAdminAccess p10 t10 (runAttempts l ⟨0, 0⟩)).2 := by
      simp [runAttempts, List.foldl_append]
    have hstep10 : checkAdminAccess p10 t10 ⟨9, 0⟩
        = (.lockedOut (LOCKOUT_DURATION / 60000), ⟨10, t10 + LOCKOUT_DURATION⟩) := by
      simp [checkAdminAccess, hp10, MAX_FAILED_ATTEMPTS]
    rw [hsplit, h9, hstep10]
    simp [checkAdminAccess, ht11]

/-- Witness driving C3 through each branch at concrete inputs: an active
lockout, a successful reset, the tenth wrong attempt starting the lockout,
an early mismatch, and the ten-wrong-attempts scenario where the eleventh
call with the correct PIN still fails locked out. -/
theorem C3_witness :
    checkAdminAccess "z" 5 ⟨0, 10⟩ = (.lockedOut 1, ⟨0, 10⟩)
    ∧ checkAdminAccess "apple" 20 ⟨7, 10⟩ = (.success, ⟨0, 0⟩)
    ∧ checkAdminAccess "z" 0 ⟨9, 0⟩ = (.lockedOut 15, ⟨10, 900000⟩)
    ∧ checkAdminAccess "z" 0 ⟨0, 0⟩ = (.invalidPin 9, ⟨1, 0⟩)
    ∧ checkAdminAccess "apple" 1
        (runAttempts (List.replicate 9 ("z", 0) ++ [("z", 0)]) ⟨0, 0⟩)
      = (.lockedOut 15, ⟨10, 900000⟩) := by
  refine ⟨?_, ?_, ?_, ?_, ?_⟩
  · exact ( C3_theorem.1 "z" 5 ⟨0, 10⟩ (by decide)).trans (by decide)
  · exact C3_theorem.2.1 "apple" 20 ⟨7, 10⟩ (by decide) rfl
  · exact ( C3_theorem.2.2.1 "z" 0 ⟨9, 0⟩ (by decide) (by decide) (by decide)).trans (by decide)
  · exact ( C3_theorem.2.2.2.1 "z" 0 ⟨0, 0⟩ (by decide) (by decide) (by decide)).trans (by decide)
  · exact ( C3_theorem.2.2.2.2 (List.replicate 9 ("z", 0)) "z" 0 "apple" 1
      (by decide) (by decide) (by decide) (by decide)).trans (by decide)


/-! ### C6: fingerprint determinism -/

theorem charListLe_total : ∀ x y : List Char, charListLe x y = true ∨ charListLe y x = true := by
  intro x
  induction x with
  | nil => intro y; left; rfl
  | cons a as ih =>
    intro y
    cases y with
    | nil => right; rfl
    | cons b bs =>
      rcases lt_trichotomy a.toNat b.toNat with h | h | h
      · left; simp [charListLe, h]
      · rcases ih bs with h' | h'
        · left; simp [charListLe, h, h']
        · right; simp [charListLe, h.symm, h']
      · right; simp [charListLe, h]
example (a b : String) (h : a.data = b.data) : a = b := by
  apply String.ext
  exact h

theorem charListLe_trans :
    ∀ x y z : List Char, charListLe x y = true → charListLe y z = true →
      charListLe x z = true := by
  intro x
  induction x with
  | nil => intro y z _ _; rfl
  | cons a as ih =>
    intro y z hxy hyz
    cases y with
    | nil => simp [charListLe] at hxy
    | cons b bs =>
      cases z with
      | nil => simp [charListLe] at hyz
      | cons c cs =>
        rcases lt_trichotomy a.toNat b.toNat with hab | hab | hab
        · rcases lt_trichotomy b.toNat c.toNat with hbc | hbc | hbc
          · simp [charListLe, lt_trans hab hbc]
          · simp [charListLe, hbc ▸ hab]
          · simp [charListLe, hbc, asymm hbc] at hyz
        · rcases lt_trichotomy b.toNat c.toNat with hbc | hbc | hbc
          · simp [charListLe, hab ▸ hbc]
          · simp only [charListLe] at hxy hyz ⊢
            rw [hab] at hxy ⊢
            rw [hbc] at hyz ⊢
            simp only [lt_irrefl, if_false] at hxy hyz ⊢
            exact ih bs cs hxy hyz
          · simp [charListLe, hbc, asymm hbc] at hyz
        · simp [charListLe, hab, asymm hab] at hxy

theorem charListLe_antisymm :
    ∀ x y : List Char, charListLe x y = true → charListLe y x = true → x = y := by
  intro x
  induction x with
  | nil =>
    intro y _ hyx
    cases y with
    | nil => rfl
    | cons b bs => simp [charListLe] at hyx
  | cons a as ih =>
    intro y hxy hyx
    cases y with
    | nil => simp [charListLe] at hxy
    | cons b bs =>
      rcases lt_trichotomy a.toNat b.toNat with hab | hab | hab
      · simp [charListLe, hab, asymm hab] at hyx
      · have hchar : a = b := by
          apply Char.ext
          apply UInt32.ext
          simpa [Char.toNat] using hab
        simp only [charListLe] at hxy hyx
        rw [hab] at hxy
        rw [hab] at hyx
        simp only [lt_irrefl, if_false] at hxy hyx
        rw [hchar, ih bs hxy hyx]
      · simp [charListLe, hab, asymm hab] at hxy

instance : IsTotal Rec idLe :=
  ⟨fun a b => charListLe_total a.id.data b.id.data⟩

instance : IsTrans Rec idLe :=
  ⟨fun _ _ _ h₁ h₂ => charListLe_trans _ _ _ h₁ h₂⟩

theorem sortedKeyEq :
    ∀ l₁ l₂ : List Rec, l₁.Perm l₂ → l₁.Sorted idLe → l₂.Sorted idLe →
      (l₁.map Rec.id).Nodup → l₁ = l₂ := by
  intro l₁
  induction l₁ with
  | nil => intro l₂ hp _ _ _; exact (List.nil_perm.mp hp).symm
  | cons a t ih =>
    intro l₂ hp hs₁ hs₂ hnd
    cases l₂ with
    | nil =>
      exact absurd (List.perm_nil.mp hp) (by simp)
    | cons b t₂ =>
      have hab : a = b := by
        have hainl2 : a ∈ b :: t₂ := hp.mem_iff.mp (List.mem_cons_self a t)
        have hbinl1 : b ∈ a :: t := hp.symm.mem_iff.mp (List.mem_cons_self b t₂)
        rcases List.mem_cons.mp hainl2 with h | hat₂
        · exact h
        · rcases List.mem_cons.mp hbinl1 with h' | hbt
          · exact h'.symm
          · exfalso
            have h1 : idLe a b := List.rel_of_sorted_cons hs₁ b hbt
            have h2 : idLe b a := List.rel_of_sorted_cons hs₂ a hat₂
            have hid : a.id.data = b.id.data := charListLe_antisymm _ _ h1 h2
            have hids : a.id = b.id := String.ext hid
            have hmem : a.id ∈ t.map Rec.id := by
              have hb' : b.id ∈ t.map Rec.id := List.mem_map_of_mem Rec.id hbt
              rwa [hids]
            simp only [List.map_cons, List.nodup_cons] at hnd
            exact hnd.1 hmem
      subst hab
      have htails : t = t₂ := by
        apply ih t₂ hp.cons_inv hs₁.of_cons hs₂.of_cons
        simp only [List.map_cons, List.nodup_cons] at hnd
        exact hnd.2
      rw [htails]

set_option maxRecDepth 10000 in
/-- C6 counterexample: the two orders of a two-element record list — a
genuine permutation of each other — hash to different fingerprints,
because the two records share the same id and the stable sort keeps their
insertion order: the claim fails for lists with repeated ids. -/
theorem C6_counterexample :
    [rDupA, rDupB].Perm [rDupB, rDupA]
    ∧ generateDataHash [rDupA, rDupB] ≠ generateDataHash [rDupB, rDupA] := by
  constructor
  · exact List.Perm.swap rDupB rDupA []
  · have hsAB : List.insertionSort idLe [rDupA, rDupB] = [rDupA, rDupB] := by decide
    have hsBA : List.insertionSort idLe [rDupB, rDupA] = [rDupB, rDupA] := by decide
    have hdAB : (recordsJson [rDupA, rDupB]).data
        = c6a1.data ++ c6b.data ++ c6c1.data ++ c6d.data := by decide
    have hdBA : (recordsJson [rDupB, rDupA]).data
        = c6a2.data ++ c6b.data ++ c6c2.data ++ c6d.data := by decide
    have k1 : List.foldl hashStep 0 c6a1.data = 1209865011 := by decide
    have k2 : List.foldl hashStep 1209865011 c6b.data = 894061018 := by decide
    have k3 : List.foldl hashStep 894061018 c6c1.data = 1346189363 := by decide
    have k4 : List.foldl hashStep 1346189363 c6d.data = 1548748043 := by decide
    have m1 : List.foldl hashStep 0 c6a2.data = -597589452 := by decide
    have m2 : List.foldl hashStep (-597589452) c6b.data = -130632903 := by decide
    have m3 : List.foldl hashStep (-130632903) c6c2.data = -1712574703 := by decide
    have m4 : List.foldl hashStep (-1712574703) c6d.data = 1390424429 := by decide
    have hAB : generateDataHash [rDupA, rDupB] = "pm31mz" := by
      rw [generateDataHash, hsAB]
      simp only [hashString]
      rw [hdAB, List.foldl_append, List.foldl_append, List.foldl_append, k1, k2, k3, k4]
      decide
    have hBA : generateDataHash [rDupB, rDupA] = "mztmct" := by
      rw [generateDataHash, hsBA]
      simp only [hashString]
      rw [hdBA, List.foldl_append, List.foldl_append, List.foldl_append, m1, m2, m3, m4]
      decide
    rw [hAB, hBA]
    decide

/-- C6 amended: the fingerprint is permutation-invariant for every record
list whose ids are pairwise distinct — which the id generator guarantees —
since the sort by id then fixes the serialization order; with a repeated
id the stable sort preserves insertion order and the fingerprint can
differ (see the counterexample). -/
theorem C6_amended (l₁ l₂ : List Rec) (hp : l₁.Perm l₂)
    (hnd : (l₁.map Rec.id).Nodup) : generateDataHash l₁ = generateDataHash l₂ := by
  have hperm : (List.insertionSort idLe l₁).Perm (List.insertionSort idLe l₂) :=
    ((List.perm_insertionSort idLe l₁).trans hp).trans
      (List.perm_insertionSort idLe l₂).symm
  have hnd₁ : ((List.insertionSort idLe l₁).map Rec.id).Nodup :=
    ((List.perm_insertionSort idLe l₁).map Rec.id).nodup_iff.mpr hnd
  have heq : List.insertionSort idLe l₁ = List.insertionSort idLe l₂ :=
    sortedKeyEq _ _ hperm (List.sorted_insertionSort idLe l₁)
      (List.sorted_insertionSort idLe l₂) hnd₁
  rw [generateDataHash, generateDataHash, heq]

/-- Witness for C6 at a concrete two-record permutation with distinct ids. -/
theorem C6_amended_witness :
    generateDataHash [rEx, rQuota] = generateDataHash [rQuota, rEx] :=
  C6_amended [rEx, rQuota] [rQuota, rEx] (List.Perm.swap rQuota rEx []) (by decide)

/-! ### C9: date-only updates bypass uniqueness re-validation -/

/-- C9: when the partial update carries neither prefectNumber nor role,
updateAttendance performs no uniqueness re-validation and can never fail
with DuplicateAttendance; whenever the id exists (and the write fits), it
persists and returns the merged record — even if the merge gives it the
(prefectNumber, role, date) triple of another live record. -/
theorem C9_theorem :
    ∀ (id : String) (u : Upd) (s : Store),
      u.prefectNumber = none → u.role = none →
      ((updateAttendance id u s).1 ≠ .error .duplicateAttendance
       ∧ ∀ er, (liveRecords s).find? (fun r => r.id == id) = some er →
           recordsJsonLength (setFirst (fun r => r.id == id) (mergeRec er u) (liveRecords s))
             ≤ MAX_STORAGE_SIZE →
           (updateAttendance id u s).1 = .ok (mergeRec er u)
           ∧ (updateAttendance id u s).2.records
               = setFirst (fun r => r.id == id) (mergeRec er u) (liveRecords s)) := by
  intro id u s hpn hrole
  have hguard : (jsTruthyStr u.prefectNumber || jsTruthyRole u.role) = false := by
    rw [hpn, hrole]; rfl
  cases hfind : (liveRecords s).find? (fun r => r.id == id) with
  | none =>
    constructor
    · simp only [updateAttendance, hfind]
      intro h
      cases h
    · intro er her _
      simp at her
  | some er0 =>
    have hbody : updateAttendance id u s =
        (match updateRecord id u s with
          | (.ok record, s1) => (.ok record, s1)
          | (.error _, s1) => (.error .updateFailed, s1)) := by
      simp only [updateAttendance, hfind, hguard, Bool.false_eq_true, if_false]
    constructor
    · rw [hbody]
      rcases h : updateRecord id u s with ⟨res, s1⟩
      cases res with
      | ok record => simp
      | error e => simp
    · intro er her hsize
      injection her with her0
      subst her0
      have hupd : updateRecord id u s =
          (match saveRecords FUEL (setFirst (fun r => r.id == id) (mergeRec er0 u) (liveRecords s)) s with
            | (s1, none) => (.ok (mergeRec er0 u), s1)
            | (s1, some e) => (.error (.save e), s1)) := by
        simp only [updateRecord, hfind]
      have hw := saveRecords_writes 99
        (setFirst (fun r => r.id == id) (mergeRec er0 u) (liveRecords s)) s hsize
      rcases hsr : saveRecords (99 + 1)
          (setFirst (fun r => r.id == id) (mergeRec er0 u) (liveRecords s)) s with ⟨s1, res⟩
      rw [hsr] at hw
      simp only at hw
      obtain ⟨hrec, hres⟩ := hw
      subst hres
      rw [hbody, hupd, FUEL_succ, hsr]
      exact ⟨rfl, hrec⟩

set_option maxRecDepth 4000 in
/-- Witness for C9: updating only the date of the second record of
`c9Store` onto day 0 succeeds and leaves two live records sharing the
(42, Senior, day 0) triple. -/
theorem C9_witness :
    (updateAttendance "b" { date := some "0" } c9Store).1
      = .ok { id := "b", prefectNumber := "42", role := .senior
            , timestamp := 86400000, date := "0" }
    ∧ ¬ UniqueTriples ((updateAttendance "b" { date := some "0" } c9Store).2.records) := by
  have h := ( C9_theorem "b" { date := some "0" } c9Store rfl rfl).2
    { id := "b", prefectNumber := "42", role := .senior, timestamp := 86400000, date := "1" }
    (by decide) (by decide)
  constructor
  · exact h.1
  · rw [h.2]
    decide

/-- C7: when every stored record carries its required fields (so restore
filters nothing) and the payload fits the size limit, restoring the
manual backup just created reproduces exactly the original record set. -/
theorem C7_theorem (s : Store) (now : Nat)
    (hval : ∀ r ∈ s.records, recTruthy r = true)
    (hsize : recordsJsonLength s.records ≤ MAX_STORAGE_SIZE) :
    (restoreFromBackup (createManualBackup now s).1 (createManualBackup now s).2).1 = .ok ()
    ∧ (restoreFromBackup (createManualBackup now s).1 (createManualBackup now s).2).2.records
        = s.records
    ∧ liveRecords (restoreFromBackup (createManualBackup now s).1
        (createManualBackup now s).2).2 = s.records := by
  have hlive : liveRecords s = s.records := List.filter_eq_self.mpr hval
  have hvalid : (liveRecords s).filter recTruthy = s.records := by
    calc (liveRecords s).filter recTruthy
        = (s.records.filter recTruthy).filter recTruthy := rfl
      _ = s.records.filter recTruthy := recTruthy_filter_idem s.records
      _ = s.records := hlive
  have hb : (createManualBackup now s).1.records = liveRecords s := rfl
  have hrestore : restoreFromBackup (createManualBackup now s).1 (createManualBackup now s).2
      = (match saveRecords FUEL s.records (createManualBackup now s).2 with
          | (s1, none) => (.ok (), s1)
          | (s1, some e) => (.error e, s1)) := by
    simp only [restoreFromBackup, hb, hvalid]
  have hw := saveRecords_writes 99 s.records (createManualBackup now s).2 hsize
  rcases hsr : saveRecords (99 + 1) s.records (createManualBackup now s).2 with ⟨s1, res⟩
  rw [hsr] at hw
  simp only at hw
  obtain ⟨hrec, hres⟩ := hw
  subst hres
  rw [hrestore, FUEL_succ, hsr]
  refine ⟨rfl, hrec, ?_⟩
  simp only [liveRecords, hrec]
  exact hlive

/-- Witness for C7 on a concrete singleton store. -/
theorem C7_witness :
    (restoreFromBackup (createManualBackup 99 (mkStore [rEx] [])).1
        (createManualBackup 99 (mkStore [rEx] [])).2).1 = .ok ()
    ∧ (restoreFromBackup (createManualBackup 99 (mkStore [rEx] [])).1
        (createManualBackup 99 (mkStore [rEx] [])).2).2.records = [rEx] := by
  have h := C7_theorem (mkStore [rEx] []) 99 (by decide) (by decide)
  exact ⟨h.1, h.2.1⟩

/-! ### C2: quota eviction -/

theorem orderedInsert_replicate (a : Rec) (n : Nat) :
    List.orderedInsert tsGe a (List.replicate n a) = List.replicate (n + 1) a := by
  cases n with
  | zero => rfl
  | succ m =>
    simp only [List.replicate_succ, List.orderedInsert, tsGe, le_refl, if_true]

theorem insertionSort_replicate (a : Rec) (n : Nat) :
    List.insertionSort tsGe (List.replicate n a) = List.replicate n a := by
  induction n with
  | zero => rfl
  | succ m ih =>
    rw [List.replicate_succ, List.insertionSort, ih, orderedInsert_replicate]
    exact (List.replicate_succ a m).symm

set_option maxRecDepth 4000 in
theorem replicate_jsonLength (n : Nat) :
    recordsJsonLength (List.replicate n rQuota) = 2 + (n * 77 - 1) := by
  have hK : (recJson rQuota).length + 1 = 77 := by decide
  rw [recordsJsonLength, List.map_replicate, hK, List.sum_replicate, smul_eq_mul]

theorem handleQEGo_eq (save : List Rec → Store → Store × Option StorageErr) (s : Store)
    (h : 1000 < (liveRecords (cleanOldBackups s)).length) :
    handleQuotaExceededGo save s
      = match save ((sortTsDesc (liveRecords (cleanOldBackups s))).take 800)
            (cleanOldBackups s) with
        | (s2, none) => { s2 with quotaWarning := true }
        | (s2, some _) => s2 := by
  simp only [handleQuotaExceededGo, h, if_true]

example : cleanOldBackups (mkStore (List.replicate 1200 rQuota) []) = mkStore (List.replicate 1200 rQuota) [] := rfl

/-- C2: on the scenario store — 1200 stored entries under a 95% quota
probe — the eviction inside handleQuotaExceeded does prune backups and
transiently persist exactly the 800 most recent records, but the enclosing
saveRecords then writes its own argument, so after the call the live count
is the argument count (1200), not 800: the final conjunct shows every
successful saveRecords ends with its argument as the live set. -/
theorem C2_theorem :
    ((handleQuotaExceeded (mkStore (List.replicate 1200 rQuota) [])).records
        = List.replicate 800 rQuota)
    ∧ (handleQuotaExceeded (mkStore (List.replicate 1200 rQuota) [])).records.length = 800
    ∧ (saveRecords FUEL (List.replicate 1200 rQuota) c2Store).1.records.length = 1200
    ∧ (saveRecords FUEL (List.replicate 1200 rQuota) c2Store).2 = none
    ∧ (∀ (records : List Rec) (s : Store),
        recordsJsonLength records ≤ MAX_STORAGE_SIZE →
        (saveRecords FUEL records s).1.records = records
          ∧ (saveRecords FUEL records s).2 = none) := by
  have hgen : ∀ (records : List Rec) (s : Store),
      recordsJsonLength records ≤ MAX_STORAGE_SIZE →
      (saveRecords FUEL records s).1.records = records
        ∧ (saveRecords FUEL records s).2 = none := by
    intro records s h
    rw [FUEL_succ]
    exact saveRecords_writes 99 records s h
  have hsize800 : recordsJsonLength (List.replicate 800 rQuota) ≤ MAX_STORAGE_SIZE := by
    rw [replicate_jsonLength]
    norm_num [MAX_STORAGE_SIZE]
  have hsize1200 : recordsJsonLength (List.replicate 1200 rQuota) ≤ MAX_STORAGE_SIZE := by
    rw [replicate_jsonLength]
    norm_num [MAX_STORAGE_SIZE]
  have hclean : cleanOldBackups (mkStore (List.replicate 1200 rQuota) [])
      = mkStore (List.replicate 1200 rQuota) [] := rfl
  have hlive : liveRecords (mkStore (List.replicate 1200 rQuota) [])
      = List.replicate 1200 rQuota := by
    rw [liveRecords_filter, List.filter_replicate]
    norm_num [recTruthy, rQuota]
    constructor <;> decide
  have hrecent : (sortTsDesc (List.replicate 1200 rQuota)).take 800
      = List.replicate 800 rQuota := by
    rw [sortTsDesc, insertionSort_replicate, List.take_replicate]
    norm_num
  have hhq : (handleQuotaExceeded (mkStore (List.replicate 1200 rQuota) [])).records
      = List.replicate 800 rQuota := by
    have hgt : 1000 < (liveRecords (cleanOldBackups (mkStore (List.replicate 1200 rQuota) []))).length := by
      rw [hclean, hlive, List.length_replicate]
      norm_num
    rw [handleQuotaExceeded, handleQEGo_eq _ _ hgt, hclean, hlive, hrecent]
    have hw := hgen (List.replicate 800 rQuota) (mkStore (List.replicate 1200 rQuota) []) hsize800
    rcases hsr : saveRecords FUEL (List.replicate 800 rQuota)
        (mkStore (List.replicate 1200 rQuota) []) with ⟨s1, res⟩
    rw [hsr] at hw
    simp only at hw
    obtain ⟨hrec, hres⟩ := hw
    subst hres
    exact hrec
  have hsave := hgen (List.replicate 1200 rQuota) c2Store hsize1200
  refine ⟨hhq, by rw [hhq, List.length_replicate], ?_, hsave.2, hgen⟩
  rw [hsave.1, List.length_replicate]

/-- Witness for the universally quantified conjunct of the C2 theorem at a
concrete store under quota pressure. -/
theorem C2_witness :
    (saveRecords FUEL [rEx] (mkStore [] [95])).1.records = [rEx] :=
  ( C2_theorem.2.2.2.2 [rEx] (mkStore [] [95]) (by decide)).1

/-! ### C1: uniqueness invariant -/

theorem uniqueTriples_sublist {l l' : List Rec} (h : l.Sublist l')
    (hu : UniqueTriples l') : UniqueTriples l :=
  List.Pairwise.sublist h hu

theorem uniqueTriples_perm {l l' : List Rec} (h : l.Perm l') :
    UniqueTriples l ↔ UniqueTriples l' :=
  h.pairwise_iff fun hne ⟨h1, h2, h3⟩ => hne ⟨h1.symm, h2.symm, h3.symm⟩

theorem checkStorageQuota_snd (s : Store) :
    (checkStorageQuota s).2.records = s.records
    ∧ (checkStorageQuota s).2.backups = s.backups := by
  cases hqe : s.quotaEnv with
  | nil => simp [checkStorageQuota, hqe]
  | cons p rest => simp [checkStorageQuota, hqe]

theorem cleanOldBackups_empty (s : Store) (hb : s.backups = []) :
    cleanOldBackups s = s := by
  obtain ⟨recs, bks, ih, qw, qe⟩ := s
  simp only at hb
  subst hb
  rfl

theorem attemptDataRecoveryGo_empty (save : List Rec → Store → Store × Option StorageErr)
    (s : Store) (hb : s.backups = []) : attemptDataRecoveryGo save s = s := by
  have hlb : getLatestBackup s = none := by
    rw [getLatestBackup, hb]
    rfl
  have hfil : (liveRecords s).filter recTruthy = liveRecords s :=
    recTruthy_filter_idem s.records
  simp [attemptDataRecoveryGo, hlb, hfil]

theorem handleQuotaExceededGo_master (save : List Rec → Store → Store × Option StorageErr)
    (hsave : ∀ (rs : List Rec) (st : Store), st.backups = [] →
        UniqueTriples (liveRecords st) → UniqueTriples (rs.filter recTruthy) →
        UniqueTriples (liveRecords (save rs st).1) ∧ (save rs st).1.backups = [])
    (s : Store) (hb : s.backups = []) (hu : UniqueTriples (liveRecords s)) :
    UniqueTriples (liveRecords (handleQuotaExceededGo save s))
    ∧ (handleQuotaExceededGo save s).backups = [] := by
  have hcb : cleanOldBackups s = s := cleanOldBackups_empty s hb
  rw [handleQuotaExceededGo, hcb]
  by_cases hgt : 1000 < (liveRecords s).length
  · simp only [hgt, if_true]
    have hperm : (sortTsDesc (liveRecords s)).Perm (liveRecords s) :=
      List.perm_insertionSort tsGe _
    have hsu : UniqueTriples (sortTsDesc (liveRecords s)) :=
      (uniqueTriples_perm hperm).mpr hu
    have hru : UniqueTriples ((sortTsDesc (liveRecords s)).take 800) :=
      uniqueTriples_sublist (List.take_sublist _ _) hsu
    have hfu : UniqueTriples (((sortTsDesc (liveRecords s)).take 800).filter recTruthy) :=
      uniqueTriples_sublist (List.filter_sublist _) hru
    have h := hsave ((sortTsDesc (liveRecords s)).take 800) s hb hu hfu
    rcases hsr : save ((sortTsDesc (liveRecords s)).take 800) s with ⟨s2, res⟩
    rw [hsr] at h
    cases res with
    | none => exact ⟨h.1, h.2⟩
    | some e => exact ⟨h.1, h.2⟩
  · simp only [hgt, if_false]
    exact ⟨hu, hb⟩

theorem saveRecords_master :
    ∀ (fuel : Nat) (recs : List Rec) (s : Store),
      s.backups = [] → UniqueTriples (liveRecords s) →
      UniqueTriples (recs.filter recTruthy) →
      (UniqueTriples (liveRecords (saveRecords fuel recs s).1)
       ∧ (saveRecords fuel recs s).1.backups = []
       ∧ ((saveRecords fuel recs s).2 = none → (saveRecords fuel recs s).1.records = recs)) := by
  intro fuel
  induction fuel with
  | zero =>
    intro recs s hb hu _
    exact ⟨hu, hb, fun h => nomatch h⟩
  | succ fuel ih =>
    intro recs s hb hu hr
    have hq := checkStorageQuota_snd s
    have hqb : (checkStorageQuota s).2.backups = [] := hq.2.trans hb
    have hqu : UniqueTriples (liveRecords (checkStorageQuota s).2) := by
      have : liveRecords (checkStorageQuota s).2 = liveRecords s := by
        rw [liveRecords, hq.1]; rfl
      rwa [this]
    have hsave' : ∀ (rs : List Rec) (st : Store), st.backups = [] →
        UniqueTriples (liveRecords st) → UniqueTriples (rs.filter recTruthy) →
        UniqueTriples (liveRecords (saveRecords fuel rs st).1)
        ∧ (saveRecords fuel rs st).1.backups = [] :=
      fun rs st h1 h2 h3 => ⟨(ih rs st h1 h2 h3).1, (ih rs st h1 h2 h3).2.1⟩
    have hs2 : UniqueTriples (liveRecords (if 90 < (checkStorageQuota s).1
          then handleQuotaExceededGo (fun rs st => saveRecords fuel rs st) (checkStorageQuota s).2
          else (checkStorageQuota s).2))
        ∧ (if 90 < (checkStorageQuota s).1
          then handleQuotaExceededGo (fun rs st => saveRecords fuel rs st) (checkStorageQuota s).2
          else (checkStorageQuota s).2).backups = [] := by
      by_cases h90 : 90 < (checkStorageQuota s).1
      · simp only [h90, if_true]
        exact handleQuotaExceededGo_master _ hsave' _ hqb hqu
      · simp only [h90, if_false]
        exact ⟨hqu, hqb⟩
    by_cases hsz : MAX_STORAGE_SIZE < recordsJsonLength recs
    · simp only [saveRecords, hsz, if_true]
      have hrec := attemptDataRecoveryGo_empty (fun rs st => saveRecords fuel rs st) _ hs2.2
      rw [hrec]
      exact ⟨hs2.1, hs2.2, fun h => nomatch h⟩
    · simp only [saveRecords, hsz, if_false]
      refine ⟨?_, hs2.2, ?_⟩
      · exact hr
      · trivial

theorem checkDup_false_notriple {pn : String} {role : Role} {date : String} {s : Store}
    (h : checkDuplicateAttendance pn role date s = false) :
    ∀ x ∈ liveRecords s, ¬(x.prefectNumber = pn ∧ x.role = role ∧ x.date = date) := by
  intro x hx hc
  obtain ⟨h1, h2, h3⟩ := hc
  rw [checkDuplicateAttendance, List.any_eq_false] at h
  have := h x hx
  simp [h1, h2, h3, beq_iff_eq] at this

theorem append_record_unique {s : Store} {record : Rec}
    (hu : UniqueTriples (liveRecords s))
    (hnd : ∀ x ∈ liveRecords s,
      ¬(x.prefectNumber = record.prefectNumber ∧ x.role = record.role ∧ x.date = record.date)) :
    UniqueTriples ((liveRecords s ++ [record]).filter recTruthy) := by
  rw [List.filter_append]
  have h1 : (liveRecords s).filter recTruthy = liveRecords s := recTruthy_filter_idem s.records
  rw [h1]
  by_cases ht : recTruthy record = true
  · have hone : [record].filter recTruthy = [record] := by simp [ht]
    rw [hone]
    refine List.pairwise_append.mpr ⟨hu, List.pairwise_singleton _ _, ?_⟩
    intro a ha b hbmem
    rw [List.mem_singleton] at hbmem
    subst hbmem
    exact hnd a ha
  · have hnone : [record].filter recTruthy = [] := by
      simp [List.filter, ht]
    rw [hnone, List.append_nil]
    exact hu

theorem cleanOldRecords_master (s : Store) (hb : s.backups = [])
    (hu : UniqueTriples (liveRecords s)) :
    UniqueTriples (liveRecords (cleanOldRecords s))
    ∧ (cleanOldRecords s).backups = [] := by
  simp only [cleanOldRecords]
  split
  · constructor
    · exact (saveRecords_master FUEL _ s hb hu
        (uniqueTriples_sublist (List.filter_sublist _)
          (uniqueTriples_sublist (List.filter_sublist _) hu))).1
    · exact (saveRecords_master FUEL _ s hb hu
        (uniqueTriples_sublist (List.filter_sublist _)
          (uniqueTriples_sublist (List.filter_sublist _) hu))).2.1
  · exact ⟨hu, hb⟩

theorem saveManual_master (pn : String) (role : Role) (ts : Nat) (nid : String) (s : Store)
    (hb : s.backups = []) (hu : UniqueTriples (liveRecords s)) :
    UniqueTriples (liveRecords (saveManualAttendance pn role ts nid s).2)
    ∧ (saveManualAttendance pn role ts nid s).2.backups = [] := by
  by_cases hdup : checkDuplicateAttendance pn role (toLocaleDateString ts) s = true
  · simp only [saveManualAttendance, hdup, if_true]
    exact ⟨hu, hb⟩
  · rw [Bool.not_eq_true] at hdup
    have hnd := checkDup_false_notriple hdup
    have hr : UniqueTriples ((liveRecords s ++
        [({ id := nid, prefectNumber := pn, role := role, timestamp := ts
          , date := toLocaleDateString ts } : Rec)]).filter recTruthy) :=
      append_record_unique hu (fun x hx => hnd x hx)
    have hm := saveRecords_master FUEL _ s hb hu hr
    rcases har : saveRecords FUEL (liveRecords s ++
        [({ id := nid, prefectNumber := pn, role := role, timestamp := ts
          , date := toLocaleDateString ts } : Rec)]) s with ⟨s1, res⟩
    rw [har] at hm
    simp only [saveManualAttendance, hdup, Bool.false_eq_true, if_false, addRecord, har]
    cases res with
    | none =>
      exact ⟨(cleanOldRecords_master s1 hm.2.1 hm.1).1,
             (cleanOldRecords_master s1 hm.2.1 hm.1).2⟩
    | some e =>
      exact ⟨hm.1, hm.2.1⟩

theorem saveBulkGo_master (date : String) (now : Nat) :
    ∀ (data : List (String × Role)) (ids : List String) (s : Store),
      s.backups = [] → UniqueTriples (liveRecords s) →
      UniqueTriples (liveRecords (saveBulkGo date now data ids s).2)
      ∧ (saveBulkGo date now data ids s).2.backups = [] := by
  intro data
  induction data with
  | nil =>
    intro ids s hb hu
    exact ⟨hu, hb⟩
  | cons head rest ih =>
    intro ids s hb hu
    obtain ⟨pn, role⟩ := head
    by_cases hdup : checkDuplicateAttendance pn role date s = true
    · simp only [saveBulkGo, hdup, if_true]
      exact ih ids s hb hu
    · have hm := saveManual_master pn role now (ids.headD "") s hb hu
      rcases hsm : saveManualAttendance pn role now (ids.headD "") s with ⟨res, s1⟩
      rw [hsm] at hm
      simp only [saveBulkGo, hdup, Bool.false_eq_true, if_false, hsm]
      cases res with
      | ok record => exact ih ids.tail s1 hm.2 hm.1
      | error e => exact ih ids.tail s1 hm.2 hm.1

theorem setFirst_split (p : Rec → Bool) :
    ∀ (l : List Rec) (er : Rec), l.find? p = some er →
      ∃ l₁ l₂, l = l₁ ++ er :: l₂ ∧ (∀ x ∈ l₁, p x = false)
        ∧ ∀ b, setFirst p b l = l₁ ++ b :: l₂ := by
  intro l
  induction l with
  | nil => intro er h; simp [List.find?] at h
  | cons a t ih =>
    intro er h
    by_cases hpa : p a = true
    · rw [List.find?_cons_of_pos _ hpa] at h
      injection h with h'
      subst h'
      exact ⟨[], t, rfl, by simp, fun b => by simp [setFirst, hpa]⟩
    · rw [List.find?_cons_of_neg _ hpa] at h
      obtain ⟨l₁, l₂, he, hl₁, hset⟩ := ih er h
      refine ⟨a :: l₁, l₂, by simp [he], ?_, ?_⟩
      · intro x hx
        rcases List.mem_cons.mp hx with hxa | hxl₁
        · subst hxa
          rw [Bool.not_eq_true] at hpa
          exact hpa
        · exact hl₁ x hxl₁
      · intro b
        simp [setFirst, hpa, hset b]

theorem update_unique {s : Store} {id : String} {u : Upd} {er : Rec}
    (hu : UniqueTriples (liveRecords s))
    (hnodup : ((liveRecords s).map Rec.id).Nodup)
    (hfind : (liveRecords s).find? (fun r => r.id == id) = some er)
    (hdate : u.date ≠ some "")
    (hnd : (liveRecords s).any (fun record =>
        record.id != id && record.prefectNumber == jsOrStr u.prefectNumber er.prefectNumber
          && record.role == jsOrRole u.role er.role
          && record.date == jsOrStr u.date er.date) = false) :
    UniqueTriples ((setFirst (fun r => r.id == id) (mergeRec er u)
      (liveRecords s)).filter recTruthy) := by
  obtain ⟨l₁, l₂, he, hl₁, hset⟩ := setFirst_split _ (liveRecords s) er hfind
  rw [hset (mergeRec er u)]
  have herid : er.id = id := by
    have := List.find?_some hfind
    simpa [beq_iff_eq] using this
  have htr : ∀ x ∈ liveRecords s, recTruthy x = true :=
    fun x hx => (List.mem_filter.mp hx).2
  have htr₁ : ∀ x ∈ l₁, recTruthy x = true :=
    fun x hx => htr x (he ▸ List.mem_append_left _ hx)
  have htr₂ : ∀ x ∈ l₂, recTruthy x = true :=
    fun x hx => htr x (he ▸ List.mem_append_right _ (List.mem_cons_of_mem er hx))
  have hf₁ : l₁.filter recTruthy = l₁ := List.filter_eq_self.mpr htr₁
  have hf₂ : l₂.filter recTruthy = l₂ := List.filter_eq_self.mpr htr₂
  have horig : UniqueTriples (l₁ ++ er :: l₂) := he ▸ hu
  have hid₁ : ∀ x ∈ l₁, x.id ≠ id := by
    intro x hx
    have := hl₁ x hx
    simpa [beq_iff_eq] using fun hcontra => by simp [hcontra] at this
  have hid₂ : ∀ x ∈ l₂, x.id ≠ id := by
    have hnodup' : ((l₁ ++ er :: l₂).map Rec.id).Nodup := he ▸ hnodup
    rw [List.map_append, List.nodup_append] at hnodup'
    have hcons := hnodup'.2.1
    rw [List.map_cons, List.nodup_cons] at hcons
    intro x hx hcontra
    have hxmem : x.id ∈ List.map Rec.id l₂ := List.mem_map_of_mem Rec.id hx
    rw [hcontra] at hxmem
    exact hcons.1 (by rw [herid]; exact hxmem)
  have hnd' : ∀ x ∈ liveRecords s, x.id ≠ id →
      ¬(x.prefectNumber = jsOrStr u.prefectNumber er.prefectNumber
        ∧ x.role = jsOrRole u.role er.role ∧ x.date = jsOrStr u.date er.date) := by
    intro x hx hxid hc
    obtain ⟨h1, h2, h3⟩ := hc
    rw [List.any_eq_false] at hnd
    have := hnd x hx
    simp [h1, h2, h3, hxid, bne_iff_ne, beq_iff_eq] at this
  rw [List.filter_append, hf₁, List.filter_cons]
  by_cases hmt : recTruthy (mergeRec er u) = true
  · rw [if_pos hmt, hf₂]
    have hroleAl : (mergeRec er u).role = jsOrRole u.role er.role := rfl
    have hdateAl : (mergeRec er u).date = jsOrStr u.date er.date := by
      cases hud : u.date with
      | none => simp [mergeRec, jsOrStr, hud]
      | some v =>
        have hv : v ≠ "" := fun hveq => hdate (by rw [hud, hveq])
        simp [mergeRec, jsOrStr, hud, hv]
    have hpnAl : (mergeRec er u).prefectNumber
        = jsOrStr u.prefectNumber er.prefectNumber := by
      cases hup : u.prefectNumber with
      | none => simp [mergeRec, jsOrStr, hup]
      | some v =>
        by_cases hv : v = ""
        · exfalso
          simp [recTruthy, mergeRec, hup, hv] at hmt
        · simp [mergeRec, jsOrStr, hup, hv]
    have hmerged : ∀ x ∈ liveRecords s, x.id ≠ id →
        ¬(x.prefectNumber = (mergeRec er u).prefectNumber
          ∧ x.role = (mergeRec er u).role ∧ x.date = (mergeRec er u).date) := by
      intro x hx hxid
      rw [hpnAl, hroleAl, hdateAl]
      exact hnd' x hx hxid
    obtain ⟨hP₁, hPc, hcross⟩ := List.pairwise_append.mp horig
    obtain ⟨her₂, hP₂⟩ := List.pairwise_cons.mp hPc
    refine List.pairwise_append.mpr ⟨hP₁, List.pairwise_cons.mpr ⟨?_, hP₂⟩, ?_⟩
    · intro x hx hc
      obtain ⟨h1, h2, h3⟩ := hc
      have hxlive : x ∈ liveRecords s :=
        he ▸ List.mem_append_right _ (List.mem_cons_of_mem er hx)
      exact hmerged x hxlive (hid₂ x hx) ⟨h1.symm, h2.symm, h3.symm⟩
    · intro a ha b hb
      rcases List.mem_cons.mp hb with hbm | hbl₂
      · subst hbm
        have halive : a ∈ liveRecords s := he ▸ List.mem_append_left _ ha
        exact hmerged a halive (hid₁ a ha)
      · exact hcross a ha b (List.mem_cons_of_mem er hbl₂)
  · rw [if_neg hmt, hf₂]
    exact uniqueTriples_sublist
      (List.Sublist.append_left (List.sublist_cons_self er l₂) l₁) horig

theorem update_master (id : String) (u : Upd) (s : Store)
    (hb : s.backups = []) (hu : UniqueTriples (liveRecords s))
    (hnodup : ((liveRecords s).map Rec.id).Nodup)
    (hguard : (jsTruthyStr u.prefectNumber || jsTruthyRole u.role) = true)
    (hdate : u.date ≠ some "") :
    UniqueTriples (liveRecords (updateAttendance id u s).2)
    ∧ (updateAttendance id u s).2.backups = [] := by
  cases hfind : (liveRecords s).find? (fun r => r.id == id) with
  | none =>
    simp only [updateAttendance, hfind]
    exact ⟨hu, hb⟩
  | some er =>
    simp only [updateAttendance, hfind, hguard, if_true]
    split
    next hdup =>
      exact ⟨hu, hb⟩
    next hdup =>
      rw [Bool.not_eq_true] at hdup
      simp only [updateRecord, hfind]
      have hr := update_unique hu hnodup hfind hdate hdup
      have hm := saveRecords_master FUEL _ s hb hu hr
      rcases hsr : saveRecords FUEL (setFirst (fun r => r.id == id) (mergeRec er u)
          (liveRecords s)) s with ⟨s1, res⟩
      rw [hsr] at hm
      cases res with
      | none => exact ⟨hm.1, hm.2.1⟩
      | some e => exact ⟨hm.1, hm.2.1⟩

set_option maxRecDepth 10000 in
/-- C1 counterexample: a store reachable from the initial store through
the domain operations alone — restore a backup with records for prefect
42 as Senior on two distinct days (the restored live set still satisfies
the invariant), then a date-only update moving the second record onto the
first day — holds two live records with the same
(prefectNumber, role, date) triple, so the uniqueness invariant is not
preserved by every reachable state. -/
theorem C1_counterexample :
    Reachable c1Bad ∧ UniqueTriples (liveRecords c1Step1)
    ∧ ¬ UniqueTriples (liveRecords c1Bad) := by
  refine ⟨?_, by decide, by decide⟩
  exact Reachable.update "b" { date := some "0" }
    (Reachable.restore c1Backup (Reachable.init []))

/-- C1 amended: in the absence of backup snapshots (so the
failure-recovery path cannot swap in foreign records), save, bulk save and
delete always preserve the uniqueness invariant on the live set; update
preserves it when the update carries a truthy prefectNumber or role (the
code only re-validates then) and does not set date to the empty string,
provided the live ids are pairwise distinct as generated; restore
preserves it when the backup's valid records are themselves
duplicate-free.  A date-only update, or a restore of a backup containing
duplicate triples, can violate it (see the counterexample). -/
theorem C1_amended :
    (∀ (pn : String) (role : Role) (ts : Nat) (nid : String) (s : Store),
      s.backups = [] → UniqueTriples (liveRecords s) →
      UniqueTriples (liveRecords (saveManualAttendance pn role ts nid s).2))
    ∧ (∀ (data : List (String × Role)) (now : Nat) (ids : List String) (s : Store),
      s.backups = [] → UniqueTriples (liveRecords s) →
      UniqueTriples (liveRecords (saveBulkAttendance data now ids s).2))
    ∧ (∀ (id : String) (s : Store),
      s.backups = [] → UniqueTriples (liveRecords s) →
      UniqueTriples (liveRecords (deleteAttendance id s).2))
    ∧ (∀ (id : String) (u : Upd) (s : Store),
      s.backups = [] → UniqueTriples (liveRecords s) →
      ((liveRecords s).map Rec.id).Nodup →
      (jsTruthyStr u.prefectNumber || jsTruthyRole u.role) = true →
      u.date ≠ some "" →
      UniqueTriples (liveRecords (updateAttendance id u s).2))
    ∧ (∀ (b : Backup) (s : Store),
      s.backups = [] → UniqueTriples (liveRecords s) →
      UniqueTriples (b.records.filter recTruthy) →
      UniqueTriples (liveRecords (restoreFromBackup b s).2)) := by
  refine ⟨?_, ?_, ?_, ?_, ?_⟩
  · intro pn role ts nid s hb hu
    exact (saveManual_master pn role ts nid s hb hu).1
  · intro data now ids s hb hu
    exact (saveBulkGo_master (toLocaleDateString now) now data ids s hb hu).1
  · intro id s hb hu
    have hr : UniqueTriples
        (((liveRecords s).filter fun r => r.id ≠ id).filter recTruthy) :=
      uniqueTriples_sublist (List.filter_sublist _)
        (uniqueTriples_sublist (List.filter_sublist _) hu)
    have hm := saveRecords_master FUEL _ s hb hu hr
    rcases hsr : saveRecords FUEL ((liveRecords s).filter fun r => r.id ≠ id) s
      with ⟨s1, res⟩
    rw [hsr] at hm
    simp only [deleteAttendance, deleteRecord, hsr]
    cases res with
    | none => exact hm.1
    | some e => exact hm.1
  · intro id u s hb hu hnodup hguard hdate
    exact (update_master id u s hb hu hnodup hguard hdate).1
  · intro b s hb hu hbu
    have hr : UniqueTriples ((b.records.filter recTruthy).filter recTruthy) := by
      rw [recTruthy_filter_idem]
      exact hbu
    have hm := saveRecords_master FUEL (b.records.filter recTruthy) s hb hu hr
    rcases hsr : saveRecords FUEL (b.records.filter recTruthy) s with ⟨s1, res⟩
    rw [hsr] at hm
    simp only [restoreFromBackup, hsr]
    cases res with
    | none => exact hm.1
    | some e => exact hm.1

/-- Witness instantiating every clause of the amended C1 theorem on a
concrete one-record store. -/
theorem C1_amended_witness :
    UniqueTriples (liveRecords
      (saveManualAttendance "2" .head 0 "y" (mkStore [rEx] [])).2)
    ∧ UniqueTriples (liveRecords
      (saveBulkAttendance [("3", .head)] 0 ["z"] (mkStore [rEx] [])).2)
    ∧ UniqueTriples (liveRecords (deleteAttendance "x" (mkStore [rEx] [])).2)
    ∧ UniqueTriples (liveRecords
      (updateAttendance "x" { prefectNumber := some "5" } (mkStore [rEx] [])).2)
    ∧ UniqueTriples (liveRecords
      (restoreFromBackup ⟨0, "2.0.0", [rEx], 1, "manual"⟩ (mkStore [rEx] [])).2) := by
  refine ⟨C1_amended.1 "2" .head 0 "y" _ rfl (by decide),
          C1_amended.2.1 [("3", .head)] 0 ["z"] _ rfl (by decide),
          C1_amended.2.2.1 "x" _ rfl (by decide),
          C1_amended.2.2.2.1 "x" { prefectNumber := some "5" } _ rfl (by decide)
            (by decide) (by decide) (by decide),
          C1_amended.2.2.2.2 ⟨0, "2.0.0", [rEx], 1, "manual"⟩ _ rfl (by decide) (by decide)⟩
